import Mathlib

/-!
# Verification of the Open/R replicated key-value store specification

This file shallowly embeds the replicated key-value store (KVS) of the
Open/R routing platform and settles the frozen claims C1..C10 against it.

The repository sources available here contain the KvStore *declarations*
(the KvStore header: `KvStore::compareValues`, `KvStore::mergeKeyValues`,
`KvStoreDb::updatePublicationTtl`, `KvStoreDb::finalizeFullSync`,
`KvStoreDb::getNextState`, the `TtlCountdownQueue` comparator,
`KvStorePeerEvent`, ...) together with their documentation comments, but
not the bodies of the KvStore member functions.  Where a body is missing
the corresponding Lean definition is modelled from the specification
(spec.md), as flagged by a `Modelled from the spec:` doc comment; the
declaration comments present in the header are honoured (e.g. the
return-value encoding of `compareValues`, the min-heap comparator of the
TTL countdown queue, the direction of `finalizeFullSync`).

`PrefixManager.cpp` is available in full; the key-filter subscription
callback (claim C10) is translated from that source directly.
-/

namespace OpenrKv

/-- The stored datum of the KVS (thrift::Value).  `version` and
`ttlVersion` are 64-bit counters, `originatorId` a node name, `value` the
opaque byte string which may be absent when only the hash is carried,
`ttl` the remaining lifetime in milliseconds and `hash` the deterministic
hash over (version, originatorId, value), carried in every record. -/
structure Value where
  version : Int
  originatorId : String
  value : Option String
  ttl : Int
  ttlVersion : Int
  hash : Int
deriving DecidableEq

/-- A per-area key-value store, publication payload or changed-key map:
a finite partial map from keys to records, embedded as a function. -/
abbrev KvMap := String → Option Value

/-- Lexicographic byte order on strings (the std::string operator< used
by the C++ comparisons), stated on the underlying character list. -/
def strLt (a b : String) : Prop := a.data < b.data

instance (a b : String) : Decidable (strLt a b) :=
  inferInstanceAs (Decidable (a.data < b.data))

lemma strLt_trans {a b c : String} (h : strLt a b) (h' : strLt b c) :
    strLt a c := lt_trans h h'

lemma strLt_asymm {a b : String} (h : strLt a b) : ¬ strLt b a := lt_asymm h

lemma strLt_irrefl (a : String) : ¬ strLt a a := lt_irrefl a.data

lemma strLt_ne {a b : String} (h : strLt a b) : a ≠ b :=
  fun e => strLt_irrefl b (e ▸ h)

lemma strLt_ne' {a b : String} (h : strLt a b) : b ≠ a :=
  fun e => strLt_irrefl a (e ▸ h)

lemma strLt_trans_eq {a b c : String} (h : strLt a b) (h' : b = c) :
    strLt a c := h' ▸ h

lemma eq_trans_strLt {a b c : String} (h : a = b) (h' : strLt b c) :
    strLt a c := h ▸ h'

lemma strLt_trichotomy (a b : String) : strLt a b ∨ a = b ∨ strLt b a := by
  rcases lt_trichotomy a.data b.data with h | h | h
  · exact Or.inl h
  · refine Or.inr (Or.inl ?_)
    cases a; cases b; simp_all
  · exact Or.inr (Or.inr h)

/-- Modelled from the spec: the body of `KvStore::compareValues` is not in
the sources (only its declaration, whose comment fixes the return encoding:
1 if v1 is better, -1 if v2 is better, 0 if equal, -2 if unknown, where
unknown can happen if a value is missing and only the hash is provided).
Per the spec's ordering rule, v1 is preferred iff the first differing field
of the lexicographic tuple (version, originatorId, hash_of_value,
ttlVersion) is greater, and a record carrying only a hash (no value bytes)
is incomparable and yields UNKNOWN. -/
def compareValues (v1 v2 : Value) : Int :=
  if v1.value.isNone ∨ v2.value.isNone then -2
  else if v1.version ≠ v2.version then
    (if v2.version < v1.version then 1 else -1)
  else if v1.originatorId ≠ v2.originatorId then
    (if strLt v2.originatorId v1.originatorId then 1 else -1)
  else if v1.hash ≠ v2.hash then
    (if v2.hash < v1.hash then 1 else -1)
  else if v1.ttlVersion ≠ v2.ttlVersion then
    (if v2.ttlVersion < v1.ttlVersion then 1 else -1)
  else 0

/-- The strict lexicographic order on the identifying key fields
(version, originatorId, hash) of a record; the ttlVersion is the final
tie-breaker and is treated separately because a merge that differs only
in ttlVersion updates the TTL fields in place. -/
def kLt (a b : Value) : Prop :=
  a.version < b.version ∨
    (a.version = b.version ∧
      (strLt a.originatorId b.originatorId ∨
        (a.originatorId = b.originatorId ∧ a.hash < b.hash)))

/-- Equality of the identifying key fields (version, originatorId, hash). -/
def kEq (a b : Value) : Prop :=
  a.version = b.version ∧ a.originatorId = b.originatorId ∧ a.hash = b.hash

instance (a b : Value) : Decidable (kLt a b) :=
  inferInstanceAs (Decidable (a.version < b.version ∨
    (a.version = b.version ∧ (strLt a.originatorId b.originatorId ∨
      (a.originatorId = b.originatorId ∧ a.hash < b.hash)))))

instance (a b : Value) : Decidable (kEq a b) :=
  inferInstanceAs (Decidable
    (a.version = b.version ∧ a.originatorId = b.originatorId ∧ a.hash = b.hash))

lemma kEq_refl (a : Value) : kEq a a := ⟨rfl, rfl, rfl⟩

lemma kEq_symm {a b : Value} (h : kEq a b) : kEq b a :=
  ⟨h.1.symm, h.2.1.symm, h.2.2.symm⟩

lemma kEq_trans {a b c : Value} (h : kEq a b) (h' : kEq b c) : kEq a c :=
  ⟨h.1.trans h'.1, h.2.1.trans h'.2.1, h.2.2.trans h'.2.2⟩

lemma kEq_not_kLt {a b : Value} (h : kEq a b) : ¬ kLt a b := by
  rintro (hv | ⟨-, ho | ⟨-, hh⟩⟩)
  · exact absurd h.1 hv.ne
  · exact absurd h.2.1 (strLt_ne ho)
  · exact absurd h.2.2 hh.ne

lemma kLt_irrefl (a : Value) : ¬ kLt a a := kEq_not_kLt (kEq_refl a)

lemma kLt_trans {a b c : Value} (h : kLt a b) (h' : kLt b c) : kLt a c := by
  rcases h with hv | ⟨hv, ho | ⟨ho, hh⟩⟩ <;>
    rcases h' with hv' | ⟨hv', ho' | ⟨ho', hh'⟩⟩
  · exact Or.inl (hv.trans hv')
  · exact Or.inl (hv.trans_eq hv')
  · exact Or.inl (hv.trans_eq hv')
  · exact Or.inl (hv.trans_lt hv')
  · exact Or.inr ⟨hv.trans hv', Or.inl (strLt_trans ho ho')⟩
  · exact Or.inr ⟨hv.trans hv', Or.inl (strLt_trans_eq ho ho')⟩
  · exact Or.inl (hv.trans_lt hv')
  · exact Or.inr ⟨hv.trans hv', Or.inl (eq_trans_strLt ho ho')⟩
  · exact Or.inr ⟨hv.trans hv', Or.inr ⟨ho.trans ho', hh.trans hh'⟩⟩

lemma kLt_asymm {a b : Value} (h : kLt a b) : ¬ kLt b a :=
  fun h' => kLt_irrefl a (kLt_trans h h')

lemma kEq_kLt {a b c : Value} (h : kEq a b) (h' : kLt b c) : kLt a c := by
  rcases h' with hv | ⟨hv, ho | ⟨ho, hh⟩⟩
  · exact Or.inl (h.1.trans_lt hv)
  · exact Or.inr ⟨h.1.trans hv, Or.inl (eq_trans_strLt h.2.1 ho)⟩
  · exact Or.inr ⟨h.1.trans hv, Or.inr ⟨h.2.1.trans ho, h.2.2.trans_lt hh⟩⟩

lemma kLt_kEq {a b c : Value} (h : kLt a b) (h' : kEq b c) : kLt a c := by
  rcases h with hv | ⟨hv, ho | ⟨ho, hh⟩⟩
  · exact Or.inl (hv.trans_eq h'.1)
  · exact Or.inr ⟨hv.trans h'.1, Or.inl (strLt_trans_eq ho h'.2.1)⟩
  · exact Or.inr ⟨hv.trans h'.1, Or.inr ⟨ho.trans h'.2.1, hh.trans_eq h'.2.2⟩⟩

lemma kLt_trichotomy (a b : Value) : kLt a b ∨ kEq a b ∨ kLt b a := by
  rcases lt_trichotomy a.version b.version with hv | hv | hv
  · exact Or.inl (Or.inl hv)
  · rcases strLt_trichotomy a.originatorId b.originatorId with ho | ho | ho
    · exact Or.inl (Or.inr ⟨hv, Or.inl ho⟩)
    · rcases lt_trichotomy a.hash b.hash with hh | hh | hh
      · exact Or.inl (Or.inr ⟨hv, Or.inr ⟨ho, hh⟩⟩)
      · exact Or.inr (Or.inl ⟨hv, ho, hh⟩)
      · exact Or.inr (Or.inr (Or.inr ⟨hv.symm, Or.inr ⟨ho.symm, hh⟩⟩))
    · exact Or.inr (Or.inr (Or.inr ⟨hv.symm, Or.inl ho⟩))
  · exact Or.inr (Or.inr (Or.inl hv))

/-- `compareValues` yields UNKNOWN exactly on a hash-only argument. -/
lemma compareValues_unknown_iff (v1 v2 : Value) :
    compareValues v1 v2 = -2 ↔ (v1.value = none ∨ v2.value = none) := by
  unfold compareValues
  by_cases h : v1.value.isNone ∨ v2.value.isNone
  · rw [if_pos h]
    simpa [Option.isNone_iff_eq_none] using h
  · rw [if_neg h]
    simp only [Option.isNone_iff_eq_none] at h
    push_neg at h
    refine iff_of_false ?_ (not_or_intro h.1 h.2)
    split_ifs <;> decide

/-- Closed form of `compareValues` on two records that both carry value
bytes: the lexicographic (version, originatorId, hash, ttlVersion) rule. -/
lemma compareValues_bytes {v1 v2 : Value}
    (h1 : v1.value ≠ none) (h2 : v2.value ≠ none) :
    compareValues v1 v2 =
      if kLt v2 v1 ∨ (kEq v1 v2 ∧ v2.ttlVersion < v1.ttlVersion) then 1
      else if kEq v1 v2 ∧ v1.ttlVersion = v2.ttlVersion then 0
      else -1 := by
  unfold compareValues
  rw [if_neg (by simp [Option.isNone_iff_eq_none, h1, h2])]
  rcases kLt_trichotomy v2 v1 with hk | hk | hk
  · rw [if_pos (Or.inl hk)]
    rcases hk with hv | ⟨hv, ho | ⟨ho, hh⟩⟩
    · rw [if_pos hv.ne', if_pos hv]
    · rw [if_neg (by rw [hv]; exact fun h => h rfl), if_pos (strLt_ne' ho), if_pos ho]
    · rw [if_neg (by rw [hv]; exact fun h => h rfl),
        if_neg (by rw [ho]; exact fun h => h rfl), if_pos hh.ne', if_pos hh]
  · have hk' := kEq_symm hk
    rw [if_neg (by rw [hk'.1]; exact fun h => h rfl),
      if_neg (by rw [hk'.2.1]; exact fun h => h rfl),
      if_neg (by rw [hk'.2.2]; exact fun h => h rfl)]
    rcases lt_trichotomy v2.ttlVersion v1.ttlVersion with ht | ht | ht
    · rw [if_pos (Or.inr ⟨hk', ht⟩), if_pos ht.ne', if_pos ht]
    · have hno : ¬(kLt v2 v1 ∨ (kEq v1 v2 ∧ v2.ttlVersion < v1.ttlVersion)) := by
        rintro (h | ⟨-, h⟩)
        · exact kEq_not_kLt hk h
        · exact absurd ht h.ne
      rw [if_neg (show ¬(v1.ttlVersion ≠ v2.ttlVersion) from by
            rw [ht]; exact fun h => h rfl),
        if_neg hno,
        if_pos (show kEq v1 v2 ∧ v1.ttlVersion = v2.ttlVersion from
          ⟨hk', ht.symm⟩)]
    · have hno : ¬(kLt v2 v1 ∨ (kEq v1 v2 ∧ v2.ttlVersion < v1.ttlVersion)) := by
        rintro (h | ⟨-, h⟩)
        · exact kEq_not_kLt hk h
        · exact absurd h (lt_asymm ht)
      have hno2 : ¬(kEq v1 v2 ∧ v1.ttlVersion = v2.ttlVersion) := by
        rintro ⟨-, h⟩
        exact absurd h ht.ne
      rw [if_neg hno, if_neg hno2, if_pos ht.ne, if_neg (lt_asymm ht)]
  · have hno : ¬(kLt v2 v1 ∨ (kEq v1 v2 ∧ v2.ttlVersion < v1.ttlVersion)) := by
      rintro (h | ⟨h, -⟩)
      · exact kLt_asymm hk h
      · exact kEq_not_kLt h hk
    have hno2 : ¬(kEq v1 v2 ∧ v1.ttlVersion = v2.ttlVersion) := by
      rintro ⟨h, -⟩
      exact kEq_not_kLt h hk
    rw [if_neg hno, if_neg hno2]
    rcases hk with hv | ⟨hv, ho | ⟨ho, hh⟩⟩
    · rw [if_pos hv.ne, if_neg (lt_asymm hv)]
    · rw [if_neg (by rw [hv]; exact fun h => h rfl), if_pos (strLt_ne ho),
        if_neg (strLt_asymm ho)]
    · rw [if_neg (by rw [hv]; exact fun h => h rfl),
        if_neg (by rw [ho]; exact fun h => h rfl), if_pos hh.ne,
        if_neg (lt_asymm hh)]

/-- The lexicographic comparison tuple of the spec's ordering rule:
(version, originatorId, hash_of_value, ttlVersion). -/
def tupleOf (v : Value) : Int × String × Int × Int :=
  (v.version, v.originatorId, v.hash, v.ttlVersion)

/-- Strict lexicographic "greater" on the spec's comparison tuple,
written out field by field: the first differing field is greater. -/
def tupleGT (a b : Int × String × Int × Int) : Prop :=
  b.1 < a.1 ∨ (a.1 = b.1 ∧
    (strLt b.2.1 a.2.1 ∨ (a.2.1 = b.2.1 ∧
      (b.2.2.1 < a.2.2.1 ∨ (a.2.2.1 = b.2.2.1 ∧ b.2.2.2 < a.2.2.2)))))

instance (a b : Int × String × Int × Int) : Decidable (tupleGT a b) :=
  inferInstanceAs (Decidable (b.1 < a.1 ∨ (a.1 = b.1 ∧
    (strLt b.2.1 a.2.1 ∨ (a.2.1 = b.2.1 ∧
      (b.2.2.1 < a.2.2.1 ∨ (a.2.2.1 = b.2.2.1 ∧ b.2.2.2 < a.2.2.2)))))))

lemma tupleGT_iff (v1 v2 : Value) :
    tupleGT (tupleOf v1) (tupleOf v2) ↔
      kLt v2 v1 ∨ (kEq v1 v2 ∧ v2.ttlVersion < v1.ttlVersion) := by
  unfold tupleGT tupleOf kLt kEq
  dsimp only
  constructor
  · rintro (h | ⟨h1, h | ⟨h2, h | ⟨h3, h4⟩⟩⟩)
    · exact Or.inl (Or.inl h)
    · exact Or.inl (Or.inr ⟨h1.symm, Or.inl h⟩)
    · exact Or.inl (Or.inr ⟨h1.symm, Or.inr ⟨h2.symm, h⟩⟩)
    · exact Or.inr ⟨⟨h1, h2, h3⟩, h4⟩
  · rintro ((h | ⟨h1, h | ⟨h2, h⟩⟩) | ⟨⟨h1, h2, h3⟩, h4⟩)
    · exact Or.inl h
    · exact Or.inr ⟨h1.symm, Or.inl h⟩
    · exact Or.inr ⟨h1.symm, Or.inr ⟨h2.symm, Or.inl h⟩⟩
    · exact Or.inr ⟨h1, Or.inr ⟨h2, Or.inr ⟨h3, h4⟩⟩⟩

lemma tupleEq_iff (v1 v2 : Value) :
    tupleOf v1 = tupleOf v2 ↔
      kEq v1 v2 ∧ v1.ttlVersion = v2.ttlVersion := by
  unfold tupleOf kEq
  simp only [Prod.mk.injEq]
  tauto

/-- C1.  For two values of the same key, `compareValues` prefers v1
(returns 1) exactly when both carry value bytes and the first differing
field of the tuple (version, originatorId, hash, ttlVersion) is greater in
v1; it returns 0 (same record) exactly when both carry value bytes and all
four fields agree; and it returns UNKNOWN (-2) exactly when either record
carries only a hash and no value bytes, yielding no preference. -/
theorem C1_compareValues_characterization (v1 v2 : Value) :
    (compareValues v1 v2 = 1 ↔
        v1.value ≠ none ∧ v2.value ≠ none ∧ tupleGT (tupleOf v1) (tupleOf v2))
    ∧ (compareValues v1 v2 = 0 ↔
        v1.value ≠ none ∧ v2.value ≠ none ∧ tupleOf v1 = tupleOf v2)
    ∧ (compareValues v1 v2 = -2 ↔ (v1.value = none ∨ v2.value = none)) := by
  refine ⟨?_, ?_, compareValues_unknown_iff v1 v2⟩ <;>
    by_cases h1 : v1.value = none
  · rw [(compareValues_unknown_iff v1 v2).mpr (Or.inl h1)]
    exact iff_of_false (by decide) (by rintro ⟨h, -⟩; exact h h1)
  · by_cases h2 : v2.value = none
    · rw [(compareValues_unknown_iff v1 v2).mpr (Or.inr h2)]
      exact iff_of_false (by decide) (by rintro ⟨-, h, -⟩; exact h h2)
    · rw [compareValues_bytes h1 h2]
      by_cases hc : kLt v2 v1 ∨ (kEq v1 v2 ∧ v2.ttlVersion < v1.ttlVersion)
      · rw [if_pos hc]
        exact iff_of_true rfl ⟨h1, h2, (tupleGT_iff v1 v2).mpr hc⟩
      · rw [if_neg hc]
        refine iff_of_false ?_ ?_
        · split_ifs <;> decide
        · rintro ⟨-, -, h⟩
          exact hc ((tupleGT_iff v1 v2).mp h)
  · rw [(compareValues_unknown_iff v1 v2).mpr (Or.inl h1)]
    exact iff_of_false (by decide) (by rintro ⟨h, -⟩; exact h h1)
  · by_cases h2 : v2.value = none
    · rw [(compareValues_unknown_iff v1 v2).mpr (Or.inr h2)]
      exact iff_of_false (by decide) (by rintro ⟨-, h, -⟩; exact h h2)
    · rw [compareValues_bytes h1 h2]
      by_cases hc : kLt v2 v1 ∨ (kEq v1 v2 ∧ v2.ttlVersion < v1.ttlVersion)
      · rw [if_pos hc]
        refine iff_of_false (by decide) ?_
        rintro ⟨-, -, h⟩
        rcases (tupleEq_iff v1 v2).mp h with ⟨he, ht⟩
        rcases hc with hc | ⟨-, hc⟩
        · exact kEq_not_kLt (kEq_symm he) hc
        · exact absurd ht hc.ne'
      · rw [if_neg hc]
        by_cases hc2 : kEq v1 v2 ∧ v1.ttlVersion = v2.ttlVersion
        · rw [if_pos hc2]
          exact iff_of_true rfl ⟨h1, h2, (tupleEq_iff v1 v2).mpr hc2⟩
        · rw [if_neg hc2]
          refine iff_of_false (by decide) ?_
          rintro ⟨-, -, h⟩
          exact hc2 ((tupleEq_iff v1 v2).mp h)

/-- Modelled from the spec: strict domination on (version, originatorId),
used by the merge rule for UNKNOWN comparisons ("accept if (version,
originator) already dominates and we lack bytes"). -/
def dominates (vIn vLoc : Value) : Prop :=
  vLoc.version < vIn.version ∨
    (vIn.version = vLoc.version ∧ strLt vLoc.originatorId vIn.originatorId)

instance (a b : Value) : Decidable (dominates a b) :=
  inferInstanceAs (Decidable (b.version < a.version ∨
    (a.version = b.version ∧ strLt b.originatorId a.originatorId)))

/-- Modelled from the spec: the per-key store outcome of
`KvStore::mergeKeyValues`, whose body is not in the sources.  For an
incoming record `vIn` at a key whose local record is `vLoc`: if the key is
absent locally, accept `vIn` subject to it having a value body (not merely
a hash); otherwise compute the tuple order: strictly better overwrites
(equal identifying fields with a newer ttlVersion update only ttl and
ttlVersion in place), strictly worse is dropped, and UNKNOWN (hash-only)
is accepted only if the incoming (version, originatorId) strictly
dominates and the local holder lacks value bytes. -/
def mergeEntryVal (vLoc : Option Value) (vIn : Value) : Option Value :=
  match vLoc with
  | none => if vIn.value.isSome then some vIn else none
  | some l =>
    if compareValues vIn l = 1 then
      if kEq vIn l then
        some { l with ttl := vIn.ttl, ttlVersion := vIn.ttlVersion }
      else some vIn
    else if compareValues vIn l = -2 then
      if dominates vIn l ∧ l.value.isNone then some vIn else some l
    else some l

/-- Modelled from the spec: whether the merge of `vIn` over `vLoc` is an
applied update, i.e. whether the key is added to the changed map. -/
def mergeEntryChanged (vLoc : Option Value) (vIn : Value) : Bool :=
  match vLoc with
  | none => vIn.value.isSome
  | some l =>
    if compareValues vIn l = 1 then true
    else if compareValues vIn l = -2 then
      decide (dominates vIn l) && l.value.isNone
    else false

/-- Filters applied to an incoming (key, value) pair; `none` accepts all. -/
def filterOk : Option (String → Value → Bool) → String → Value → Bool
  | none, _, _ => true
  | some f, k, v => f k v

/-- Modelled from the spec: `KvStore::mergeKeyValues` — merge an incoming
map into the local store; returns the updated store together with the
changed map of applied updates. -/
def mergeKeyValues (kvStore update : KvMap)
    (filters : Option (String → Value → Bool)) : KvMap × KvMap :=
  (fun k =>
    match update k with
    | none => kvStore k
    | some vIn =>
      if filterOk filters k vIn then mergeEntryVal (kvStore k) vIn
      else kvStore k,
   fun k =>
    match update k with
    | none => none
    | some vIn =>
      if filterOk filters k vIn && mergeEntryChanged (kvStore k) vIn then
        some vIn
      else none)

/-- The store produced by merging `B` into `A` (no filters). -/
def mergeStore (A B : KvMap) : KvMap := (mergeKeyValues A B none).1

/-- The per-key combination underlying `mergeStore`. -/
def mergeOpt (o i : Option Value) : Option Value :=
  match i with
  | none => o
  | some vIn => mergeEntryVal o vIn

lemma mergeStore_eq (A B : KvMap) (k : String) :
    mergeStore A B k = mergeOpt (A k) (B k) := by
  simp only [mergeStore, mergeKeyValues, mergeOpt, filterOk]
  cases hB : B k <;> simp [hB]

lemma mergeEntryVal_self (v : Value) : mergeEntryVal (some v) v = some v := by
  simp only [mergeEntryVal]
  by_cases hv : v.value = none
  · have h2 := (compareValues_unknown_iff v v).mpr (Or.inl hv)
    rw [h2]
    have hd : ¬ dominates v v := by
      rintro (h | ⟨-, h⟩)
      · exact lt_irrefl _ h
      · exact strLt_irrefl _ h
    simp [hd]
  · have h0 : compareValues v v = 0 := by
      rw [compareValues_bytes hv hv]
      rw [if_neg (by rintro (h | ⟨-, h⟩); exacts [kLt_irrefl v h, lt_irrefl _ h]),
        if_pos ⟨kEq_refl v, rfl⟩]
    simp [h0]

lemma mergeEntryChanged_self (v : Value) :
    mergeEntryChanged (some v) v = false := by
  simp only [mergeEntryChanged]
  by_cases hv : v.value = none
  · have h2 := (compareValues_unknown_iff v v).mpr (Or.inl hv)
    rw [h2]
    have hd : ¬ dominates v v := by
      rintro (h | ⟨-, h⟩)
      · exact lt_irrefl _ h
      · exact strLt_irrefl _ h
    simp [hd]
  · have h0 : compareValues v v = 0 := by
      rw [compareValues_bytes hv hv]
      rw [if_neg (by rintro (h | ⟨-, h⟩); exacts [kLt_irrefl v h, lt_irrefl _ h]),
        if_pos ⟨kEq_refl v, rfl⟩]
    simp [h0]

/-- C2.  Merge is idempotent: merging any store into itself (under any
filters) leaves the store untouched and produces an empty changed map,
i.e. `mergeKeyValues(A, A)` applies no updates. -/
theorem C2_merge_idempotent (A : KvMap)
    (filters : Option (String → Value → Bool)) :
    mergeKeyValues A A filters = (A, fun _ => none) := by
  unfold mergeKeyValues
  simp only [Prod.mk.injEq]
  constructor
  · funext k
    cases hA : A k with
    | none => simp
    | some v =>
      dsimp only
      split_ifs with hf
      · exact mergeEntryVal_self v
      · rfl
  · funext k
    cases hA : A k with
    | none => simp
    | some v =>
      dsimp only
      rw [mergeEntryChanged_self v]
      simp

/-- The in-place TTL update of the merge rule: keep the local record and
take only ttl and ttlVersion from the incoming one. -/
def updTtl (l i : Value) : Value :=
  ⟨l.version, l.originatorId, l.value, i.ttl, i.ttlVersion, l.hash⟩

@[simp] lemma updTtl_version (l i : Value) : (updTtl l i).version = l.version := rfl
@[simp] lemma updTtl_originatorId (l i : Value) :
    (updTtl l i).originatorId = l.originatorId := rfl
@[simp] lemma updTtl_value (l i : Value) : (updTtl l i).value = l.value := rfl
@[simp] lemma updTtl_ttl (l i : Value) : (updTtl l i).ttl = i.ttl := rfl
@[simp] lemma updTtl_ttlVersion (l i : Value) :
    (updTtl l i).ttlVersion = i.ttlVersion := rfl
@[simp] lemma updTtl_hash (l i : Value) : (updTtl l i).hash = l.hash := rfl

@[simp] lemma kEq_updTtl_left (l i a : Value) :
    kEq (updTtl l i) a ↔ kEq l a := by unfold kEq; simp

@[simp] lemma kEq_updTtl_right (l i a : Value) :
    kEq a (updTtl l i) ↔ kEq a l := by unfold kEq; simp

@[simp] lemma kLt_updTtl_left (l i a : Value) :
    kLt (updTtl l i) a ↔ kLt l a := by unfold kLt; simp

@[simp] lemma kLt_updTtl_right (l i a : Value) :
    kLt a (updTtl l i) ↔ kLt a l := by unfold kLt; simp

lemma updTtl_updTtl (l i j : Value) : updTtl (updTtl l i) j = updTtl l j := rfl

/-- The merge outcome on two records that both carry value bytes: take the
incoming record when its identifying key is strictly greater, update TTL
fields in place on an identifying tie with a newer ttlVersion, keep the
local record otherwise. -/
def mergeBytes (l i : Value) : Value :=
  if kEq i l then
    (if l.ttlVersion < i.ttlVersion then updTtl l i else l)
  else if kLt l i then i else l

lemma mergeBytes_value_ne_none {l i : Value}
    (hl : l.value ≠ none) (hi : i.value ≠ none) :
    (mergeBytes l i).value ≠ none := by
  unfold mergeBytes
  split_ifs <;> simp_all

/-- `mergeEntryVal` on two byte-carrying records computes `mergeBytes`. -/
lemma mergeEntryVal_bytes {l i : Value}
    (hl : l.value ≠ none) (hi : i.value ≠ none) :
    mergeEntryVal (some l) i = some (mergeBytes l i) := by
  have hcv := compareValues_bytes hi hl
  simp only [mergeEntryVal, mergeBytes]
  by_cases he : kEq i l
  · by_cases ht : l.ttlVersion < i.ttlVersion
    · have h1 : compareValues i l = 1 := by
        rw [hcv, if_pos (Or.inr ⟨he, ht⟩)]
      simp [h1, he, ht, updTtl]
    · have h1 : compareValues i l ≠ 1 ∧ compareValues i l ≠ -2 := by
        rw [hcv,
          if_neg (by
            rintro (h | ⟨-, h⟩)
            · exact kEq_not_kLt (kEq_symm he) h
            · exact ht h)]
        split_ifs <;> exact ⟨by decide, by decide⟩
      simp [h1.1, h1.2, he, ht]
  · by_cases hk : kLt l i
    · have h1 : compareValues i l = 1 := by rw [hcv, if_pos (Or.inl hk)]
      simp [h1, he, hk]
    · have h1 : compareValues i l ≠ 1 ∧ compareValues i l ≠ -2 := by
        rw [hcv,
          if_neg (by
            rintro (h | ⟨h, -⟩)
            · exact hk h
            · exact he h)]
        split_ifs <;> exact ⟨by decide, by decide⟩
      simp [h1.1, h1.2, he, hk]

lemma mergeBytes_of_kLt {l i : Value} (h : kLt l i) : mergeBytes l i = i := by
  have hne : ¬ kEq i l := fun he => kEq_not_kLt (kEq_symm he) h
  simp [mergeBytes, hne, h]

lemma mergeBytes_of_gt {l i : Value} (h : kLt i l) : mergeBytes l i = l := by
  have hne : ¬ kEq i l := fun he => kEq_not_kLt he h
  simp [mergeBytes, hne, kLt_asymm h]

lemma mergeBytes_of_kEq {l i : Value} (h : kEq i l) :
    mergeBytes l i =
      if l.ttlVersion < i.ttlVersion then updTtl l i else l := by
  simp [mergeBytes, h]

/-- `updTtl` absorbs on the right: only the TTL fields of the incoming
record matter. -/
@[simp] lemma updTtl_right (l i j : Value) :
    updTtl l (updTtl i j) = updTtl l j := rfl

/-- Associativity of the byte-record merge outcome. -/
lemma mergeBytes_assoc (x y z : Value) :
    mergeBytes (mergeBytes x y) z = mergeBytes x (mergeBytes y z) := by
  rcases kLt_trichotomy x y with hxy | hxy | hxy
  · rw [mergeBytes_of_kLt hxy]
    rcases kLt_trichotomy y z with hyz | hyz | hyz
    · rw [mergeBytes_of_kLt hyz, mergeBytes_of_kLt (kLt_trans hxy hyz)]
    · rw [mergeBytes_of_kEq (kEq_symm hyz)]
      by_cases ht : y.ttlVersion < z.ttlVersion
      · rw [if_pos ht, mergeBytes_of_kLt (show kLt x (updTtl y z) from
          (kLt_updTtl_right y z x).mpr hxy)]
      · rw [if_neg ht, mergeBytes_of_kLt hxy]
    · rw [mergeBytes_of_gt hyz, mergeBytes_of_kLt hxy]
  · have hyx := kEq_symm hxy
    rw [mergeBytes_of_kEq hyx]
    rcases kLt_trichotomy y z with hyz | hyz | hyz
    · have hxz : kLt x z := kEq_kLt hxy hyz
      rw [mergeBytes_of_kLt hyz, mergeBytes_of_kLt hxz]
      by_cases ht : x.ttlVersion < y.ttlVersion
      · rw [if_pos ht, mergeBytes_of_kLt
          (show kLt (updTtl x y) z from (kLt_updTtl_left x y z).mpr hxz)]
      · rw [if_neg ht, mergeBytes_of_kLt hxz]
    · -- all three identifying keys equal: only TTL fields compete
      have hzy := kEq_symm hyz
      rw [mergeBytes_of_kEq hzy]
      by_cases ht1 : x.ttlVersion < y.ttlVersion <;>
        by_cases ht2 : y.ttlVersion < z.ttlVersion
      · rw [if_pos ht1, if_pos ht2,
          mergeBytes_of_kEq (show kEq z (updTtl x y) from
            (kEq_updTtl_right x y z).mpr (kEq_trans hzy hyx)),
          mergeBytes_of_kEq (show kEq (updTtl y z) x from
            (kEq_updTtl_left y z x).mpr hyx)]
        simp only [updTtl_ttlVersion, updTtl_updTtl, updTtl_right]
        rw [if_pos ht2, if_pos (lt_trans ht1 ht2)]
      · rw [if_pos ht1, if_neg ht2,
          mergeBytes_of_kEq (show kEq z (updTtl x y) from
            (kEq_updTtl_right x y z).mpr (kEq_trans hzy hyx)),
          mergeBytes_of_kEq hyx]
        simp only [updTtl_ttlVersion]
        rw [if_neg ht2, if_pos ht1]
      · rw [if_neg ht1, if_pos ht2,
          mergeBytes_of_kEq (kEq_trans hzy hyx),
          mergeBytes_of_kEq (show kEq (updTtl y z) x from
            (kEq_updTtl_left y z x).mpr hyx)]
        simp only [updTtl_ttlVersion, updTtl_right]
      · rw [if_neg ht1, if_neg ht2,
          mergeBytes_of_kEq (kEq_trans hzy hyx),
          mergeBytes_of_kEq hyx]
        have hxz : ¬ x.ttlVersion < z.ttlVersion := by omega
        rw [if_neg hxz, if_neg ht1]
    · rw [mergeBytes_of_gt hyz]
      by_cases ht : x.ttlVersion < y.ttlVersion
      · rw [if_pos ht, mergeBytes_of_gt
          (show kLt z (updTtl x y) from
            (kLt_updTtl_right x y z).mpr (kLt_kEq hyz hyx)),
          mergeBytes_of_kEq hyx, if_pos ht]
      · rw [if_neg ht, mergeBytes_of_gt (kLt_kEq hyz hyx),
          mergeBytes_of_kEq hyx, if_neg ht]
  · rw [mergeBytes_of_gt hxy]
    rcases kLt_trichotomy y z with hyz | hyz | hyz
    · rw [mergeBytes_of_kLt hyz]
    · rw [mergeBytes_of_kEq (kEq_symm hyz)]
      by_cases ht : y.ttlVersion < z.ttlVersion
      · rw [if_pos ht, mergeBytes_of_gt
          (show kLt (updTtl y z) x from (kLt_updTtl_left y z x).mpr hxy),
          mergeBytes_of_gt (kEq_kLt (kEq_symm hyz) hxy)]
      · rw [if_neg ht, mergeBytes_of_gt hxy, mergeBytes_of_gt
          (kEq_kLt (kEq_symm hyz) hxy)]
    · rw [mergeBytes_of_gt hyz, mergeBytes_of_gt hxy,
        mergeBytes_of_gt (kLt_trans hyz hxy)]

lemma mergeEntryVal_none {i : Value} (hi : i.value ≠ none) :
    mergeEntryVal none i = some i := by
  simp [mergeEntryVal, Option.isSome_iff_ne_none, hi]

/-- Per-key associativity of the merge combination, on byte-carrying
records. -/
lemma mergeOpt_assoc (x y z : Option Value)
    (hx : ∀ v, x = some v → v.value ≠ none)
    (hy : ∀ v, y = some v → v.value ≠ none)
    (hz : ∀ v, z = some v → v.value ≠ none) :
    mergeOpt (mergeOpt x y) z = mergeOpt x (mergeOpt y z) := by
  cases x with
  | none =>
    cases y with
    | none =>
      cases z with
      | none => rfl
      | some c =>
        show mergeOpt none (some c) = mergeOpt none (mergeOpt none (some c))
        rw [show mergeOpt none (some c) = mergeEntryVal none c from rfl,
          mergeEntryVal_none (hz c rfl)]
        exact (mergeEntryVal_none (hz c rfl)).symm
    | some b =>
      have hb := hy b rfl
      cases z with
      | none => rfl
      | some c =>
        have hc := hz c rfl
        show mergeOpt (mergeEntryVal none b) (some c)
          = mergeOpt none (mergeEntryVal (some b) c)
        rw [mergeEntryVal_none hb, mergeEntryVal_bytes hb hc]
        show mergeEntryVal (some b) c = mergeEntryVal none (mergeBytes b c)
        rw [mergeEntryVal_bytes hb hc,
          mergeEntryVal_none (mergeBytes_value_ne_none hb hc)]
  | some a =>
    have ha := hx a rfl
    cases y with
    | none =>
      cases z with
      | none => rfl
      | some c =>
        have hc := hz c rfl
        show mergeOpt (some a) (some c) = mergeOpt (some a) (mergeEntryVal none c)
        rw [mergeEntryVal_none hc]
    | some b =>
      have hb := hy b rfl
      cases z with
      | none => rfl
      | some c =>
        have hc := hz c rfl
        show mergeOpt (mergeEntryVal (some a) b) (some c)
          = mergeOpt (some a) (mergeEntryVal (some b) c)
        rw [mergeEntryVal_bytes ha hb, mergeEntryVal_bytes hb hc]
        show mergeEntryVal (some (mergeBytes a b)) c
          = mergeEntryVal (some a) (mergeBytes b c)
        rw [mergeEntryVal_bytes (mergeBytes_value_ne_none ha hb) hc,
          mergeEntryVal_bytes ha (mergeBytes_value_ne_none hb hc),
          mergeBytes_assoc]

/-- Counterexample stores for the associativity claim as frozen: store B
holds a hash-only record (same version, originator and hash as the full
record in C), store A is empty. -/
def cexRecBytes : Value := ⟨5, "n", some "p", 100, 0, 7⟩

def cexRecHashOnly : Value := ⟨5, "n", none, 100, 0, 7⟩

def cexA : KvMap := fun _ => none

def cexB : KvMap := fun k => if k = "k" then some cexRecHashOnly else none

def cexC : KvMap := fun k => if k = "k" then some cexRecBytes else none

/-- The associativity claim fails on stores holding hash-only records:
with A empty, B holding a hash-only record and C the corresponding full
record for the same key, merging left-to-right keeps the full record while
merging right-to-left drops everything, so the two bracketings differ at
the key. -/
theorem C3_counterexample :
    mergeStore (mergeStore cexA cexB) cexC "k" ≠
      mergeStore cexA (mergeStore cexB cexC) "k" := by decide

/-- C3 (amended).  Merge is associative on stores all of whose records
carry a value body: for all such A, B, C,
merge(merge(A, B), C) == merge(A, merge(B, C)) as resulting stores. -/
theorem C3_merge_associative_on_byte_stores (A B C : KvMap)
    (hA : ∀ k v, A k = some v → v.value ≠ none)
    (hB : ∀ k v, B k = some v → v.value ≠ none)
    (hC : ∀ k v, C k = some v → v.value ≠ none) :
    mergeStore (mergeStore A B) C = mergeStore A (mergeStore B C) := by
  funext k
  rw [mergeStore_eq, mergeStore_eq, mergeStore_eq, mergeStore_eq]
  exact mergeOpt_assoc (A k) (B k) (C k)
    (fun v h => hA k v h) (fun v h => hB k v h) (fun v h => hC k v h)

def wbA : KvMap := fun k => if k = "k1" then some ⟨1, "a", some "x", 50, 0, 10⟩ else none

def wbB : KvMap := fun k => if k = "k1" then some ⟨2, "b", some "y", 50, 0, 11⟩ else none

def wbC : KvMap := fun k => if k = "k2" then some ⟨1, "c", some "z", 50, 0, 12⟩ else none

/-- Witness for the amended associativity theorem at concrete byte-carrying
stores. -/
theorem C3_witness :
    ((∀ k v, wbA k = some v → v.value ≠ none)
      ∧ (∀ k v, wbB k = some v → v.value ≠ none)
      ∧ (∀ k v, wbC k = some v → v.value ≠ none))
    ∧ mergeStore (mergeStore wbA wbB) wbC
        = mergeStore wbA (mergeStore wbB wbC) := by
  have hA : ∀ k v, wbA k = some v → v.value ≠ none := by
    intro k v h
    unfold wbA at h
    split at h
    · injection h with h2
      subst h2
      decide
    · exact Option.noConfusion h
  have hB : ∀ k v, wbB k = some v → v.value ≠ none := by
    intro k v h
    unfold wbB at h
    split at h
    · injection h with h2
      subst h2
      decide
    · exact Option.noConfusion h
  have hC : ∀ k v, wbC k = some v → v.value ≠ none := by
    intro k v h
    unfold wbC at h
    split at h
    · injection h with h2
      subst h2
      decide
    · exact Option.noConfusion h
  exact ⟨⟨hA, hB, hC⟩, C3_merge_associative_on_byte_stores wbA wbB wbC hA hB hC⟩

/-- A record with its value bytes stripped (hash retained), as carried in
a hash dump. -/
def stripValue (v : Value) : Value :=
  ⟨v.version, v.originatorId, none, v.ttl, v.ttlVersion, v.hash⟩

@[simp] lemma stripValue_version (v : Value) :
    (stripValue v).version = v.version := rfl
@[simp] lemma stripValue_originatorId (v : Value) :
    (stripValue v).originatorId = v.originatorId := rfl
@[simp] lemma stripValue_value (v : Value) : (stripValue v).value = none := rfl
@[simp] lemma stripValue_ttlVersion (v : Value) :
    (stripValue v).ttlVersion = v.ttlVersion := rfl
@[simp] lemma stripValue_hash (v : Value) : (stripValue v).hash = v.hash := rfl

/-- Modelled from the spec: `dumpHashWithFilters` applied to the whole
store — the initiator's (key, hash) dump of sync step 1: every record with
its value bytes stripped. -/
def hashDump (A : KvMap) : KvMap := fun k => (A k).map stripValue

/-- The full preference order of the spec: strictly greater on the first
differing field of (version, originatorId, hash, ttlVersion). -/
def tLt (a b : Value) : Prop :=
  kLt a b ∨ (kEq a b ∧ a.ttlVersion < b.ttlVersion)

instance (a b : Value) : Decidable (tLt a b) :=
  inferInstanceAs (Decidable (kLt a b ∨ (kEq a b ∧ a.ttlVersion < b.ttlVersion)))

lemma tLt_asymm {a b : Value} (h : tLt a b) : ¬ tLt b a := by
  rcases h with h | ⟨he, ht⟩
  · rintro (h' | ⟨he', -⟩)
    · exact kLt_asymm h h'
    · exact kEq_not_kLt (kEq_symm he') h
  · rintro (h' | ⟨-, ht'⟩)
    · exact kEq_not_kLt (kEq_symm he) h'
    · omega

lemma not_tLt_of_tie {a b : Value} (he : kEq a b)
    (ht : a.ttlVersion = b.ttlVersion) : ¬ tLt a b := by
  rintro (h | ⟨-, h⟩)
  · exact kEq_not_kLt he h
  · omega

lemma tLt_total (a b : Value) :
    tLt a b ∨ (kEq a b ∧ a.ttlVersion = b.ttlVersion) ∨ tLt b a := by
  rcases kLt_trichotomy a b with h | h | h
  · exact Or.inl (Or.inl h)
  · rcases lt_trichotomy a.ttlVersion b.ttlVersion with ht | ht | ht
    · exact Or.inl (Or.inr ⟨h, ht⟩)
    · exact Or.inr (Or.inl ⟨h, ht⟩)
    · exact Or.inr (Or.inr (Or.inr ⟨kEq_symm h, ht⟩))
  · exact Or.inr (Or.inr (Or.inl h))

@[simp] lemma kEq_strip_left (v w : Value) :
    kEq (stripValue v) w ↔ kEq v w := by unfold kEq; simp
@[simp] lemma kEq_strip_right (v w : Value) :
    kEq w (stripValue v) ↔ kEq w v := by unfold kEq; simp
@[simp] lemma kLt_strip_left (v w : Value) :
    kLt (stripValue v) w ↔ kLt v w := by unfold kLt; simp
@[simp] lemma kLt_strip_right (v w : Value) :
    kLt w (stripValue v) ↔ kLt w v := by unfold kLt; simp
@[simp] lemma tLt_strip_left (v w : Value) :
    tLt (stripValue v) w ↔ tLt v w := by unfold tLt; simp
@[simp] lemma tLt_strip_right (v w : Value) :
    tLt w (stripValue v) ↔ tLt w v := by unfold tLt; simp

/-- Modelled from the spec: the responder's dump reply key-vals — for each
key the requester lacks or holds stale (strictly smaller tuple), the
responder's full record. -/
def fullSyncReplyKeyVals (B dumpA : KvMap) : KvMap :=
  fun k =>
    match B k, dumpA k with
    | some vB, none => some vB
    | some vB, some a => if tLt a vB then some vB else none
    | none, _ => none

/-- Modelled from the spec: the `tobeUpdatedKeys` of the dump reply — the
keys the responder lacks or holds stale, which the initiator must supply. -/
def fullSyncTobeUpdatedKeys (B dumpA : KvMap) : String → Bool :=
  fun k =>
    match dumpA k, B k with
    | some _, none => true
    | some a, some vB => decide (tLt vB a)
    | none, _ => false

/-- Modelled from the spec: `finalizeFullSync` — per the header comment
the full-sync initiator sends back to the responder (senderId) the full
records of the keys the responder needs to update. -/
def finalizeFullSyncKeyVals (A : KvMap) (tobeUpd : String → Bool) : KvMap :=
  fun k => if tobeUpd k then A k else none

/-- The complete three-way initial full sync between an initiator A and a
responder B: A sends its hash dump; B replies with full records for the
keys A lacks or holds stale, together with tobeUpdatedKeys; A merges the
reply; finalizeFullSync sends A's records for the tobeUpdatedKeys back to
B, which merges them.  Returns the resulting stores (A', B'). -/
def threeWaySync (A B : KvMap) : KvMap × KvMap :=
  (mergeStore A (fullSyncReplyKeyVals B (hashDump A)),
   mergeStore B
     (finalizeFullSyncKeyVals A (fullSyncTobeUpdatedKeys B (hashDump A))))

/-- The observable content of a stored record: everything except the
remaining-TTL milliseconds (which legitimately differ across replicas). -/
def recOf : Option Value → Option (Int × String × Option String × Int)
  | none => none
  | some v => some (v.version, v.originatorId, v.value, v.ttlVersion)

/-- C4 (amended).  After the three-way full sync, the two stores agree on
every key held by either side (same version, originatorId, value bytes
and ttlVersion), provided all records carry value bytes and records with
equal identifying fields (version, originatorId, hash) carry equal bytes. -/
theorem C4_three_way_sync_converges (A B : KvMap)
    (hA : ∀ k v, A k = some v → v.value ≠ none)
    (hB : ∀ k v, B k = some v → v.value ≠ none)
    (hc : ∀ k vA vB, A k = some vA → B k = some vB → kEq vA vB →
      vA.value = vB.value) :
    ∀ k, recOf ((threeWaySync A B).1 k) = recOf ((threeWaySync A B).2 k) := by
  intro k
  show recOf (mergeStore A (fullSyncReplyKeyVals B (hashDump A)) k)
    = recOf (mergeStore B
        (finalizeFullSyncKeyVals A (fullSyncTobeUpdatedKeys B (hashDump A))) k)
  rw [mergeStore_eq, mergeStore_eq]
  cases hAk : A k with
  | none =>
    cases hBk : B k with
    | none =>
      have hreply : fullSyncReplyKeyVals B (hashDump A) k = none := by
        simp [fullSyncReplyKeyVals, hashDump, hAk, hBk]
      have hfin : finalizeFullSyncKeyVals A
          (fullSyncTobeUpdatedKeys B (hashDump A)) k = none := by
        simp [finalizeFullSyncKeyVals, fullSyncTobeUpdatedKeys, hashDump,
          hAk, hBk]
      rw [hreply, hfin]
    | some vB =>
      have hb := hB k vB hBk
      have hreply : fullSyncReplyKeyVals B (hashDump A) k = some vB := by
        simp [fullSyncReplyKeyVals, hashDump, hAk, hBk]
      have hfin : finalizeFullSyncKeyVals A
          (fullSyncTobeUpdatedKeys B (hashDump A)) k = none := by
        simp [finalizeFullSyncKeyVals, fullSyncTobeUpdatedKeys, hashDump,
          hAk, hBk]
      rw [hreply, hfin]
      show recOf (mergeEntryVal none vB) = recOf (some vB)
      rw [mergeEntryVal_none hb]
  | some vA =>
    have ha := hA k vA hAk
    cases hBk : B k with
    | none =>
      have hreply : fullSyncReplyKeyVals B (hashDump A) k = none := by
        simp [fullSyncReplyKeyVals, hashDump, hAk, hBk]
      have hfin : finalizeFullSyncKeyVals A
          (fullSyncTobeUpdatedKeys B (hashDump A)) k = some vA := by
        simp [finalizeFullSyncKeyVals, fullSyncTobeUpdatedKeys, hashDump,
          hAk, hBk]
      rw [hreply, hfin]
      show recOf (some vA) = recOf (mergeEntryVal none vA)
      rw [mergeEntryVal_none ha]
    | some vB =>
      have hb := hB k vB hBk
      have hreply : fullSyncReplyKeyVals B (hashDump A) k
          = if tLt vA vB then some vB else none := by
        simp [fullSyncReplyKeyVals, hashDump, hAk, hBk]
      have hfin : finalizeFullSyncKeyVals A
          (fullSyncTobeUpdatedKeys B (hashDump A)) k
          = if tLt vB vA then some vA else none := by
        simp [finalizeFullSyncKeyVals, fullSyncTobeUpdatedKeys, hashDump,
          hAk, hBk]
      rw [hreply, hfin]
      rcases tLt_total vA vB with ht | ⟨he, ht⟩ | ht
      · -- B's record is strictly better: A takes it, B keeps it
        rw [if_pos ht, if_neg (tLt_asymm ht)]
        show recOf (mergeEntryVal (some vA) vB) = recOf (some vB)
        rw [mergeEntryVal_bytes ha hb]
        rcases ht with ht | ⟨he, ht⟩
        · rw [mergeBytes_of_kLt ht]
        · rw [mergeBytes_of_kEq (kEq_symm he), if_pos ht]
          have hv := hc k vA vB hAk hBk he
          simp [recOf, updTtl, he.1, he.2.1, hv]
      · -- identical tuples: both sides keep their records
        rw [if_neg (not_tLt_of_tie he ht),
          if_neg (not_tLt_of_tie (kEq_symm he) ht.symm)]
        have hv := hc k vA vB hAk hBk he
        simp [recOf, mergeOpt, he.1, he.2.1, hv, ht]
      · -- A's record is strictly better: A keeps it, B receives it
        rw [if_neg (tLt_asymm ht), if_pos ht]
        show recOf (some vA) = recOf (mergeEntryVal (some vB) vA)
        rw [mergeEntryVal_bytes hb ha]
        rcases ht with ht | ⟨he, ht⟩
        · rw [mergeBytes_of_kLt ht]
        · rw [mergeBytes_of_kEq (kEq_symm he), if_pos ht]
          have hv := hc k vA vB hAk hBk (kEq_symm he)
          simp [recOf, updTtl, he.1, he.2.1, hv]

/-- S4 initiator store: {k1 = v1 @ version 1, k2 = v2 @ version 2}. -/
def s4A : KvMap := fun k =>
  if k = "k1" then some ⟨1, "a", some "v1", 100, 0, 11⟩
  else if k = "k2" then some ⟨2, "a", some "v2", 100, 0, 12⟩
  else none

/-- S4 responder store: {k2 = v2 @ version 3, k3 = v3 @ version 1}. -/
def s4B : KvMap := fun k =>
  if k = "k2" then some ⟨3, "b", some "v2b", 100, 0, 13⟩
  else if k = "k3" then some ⟨1, "b", some "v3", 100, 0, 14⟩
  else none

/-- The three-way exchange exactly as the claim words it: the responder
records the keys the requester lacks or holds stale as pendingInitKeys and
floods exactly those (its own records) to the requester after the dump
reply; nothing flows back to the responder. -/
def claimedThreeWaySync (A B : KvMap) : KvMap × KvMap :=
  (mergeStore (mergeStore A (fullSyncReplyKeyVals B (hashDump A)))
     (fullSyncReplyKeyVals B (hashDump A)),
   B)

/-- Under the claim's literal mechanism the responder never receives k1,
which only the requester holds, so the exchange does not leave both nodes
holding the same value for every key held by either side — contradicting
the claim's own S4 outcome. -/
theorem C4_counterexample :
    s4A "k1" ≠ none ∧ (claimedThreeWaySync s4A s4B).2 "k1" = none := by
  decide

/-- Witness: the amended three-way sync at the S4 example converges, and
both resulting stores hold exactly the union {k1 = v1@1, k2 = v2@3,
k3 = v3@1}. -/
theorem C4_witness :
    ((∀ k v, s4A k = some v → v.value ≠ none)
      ∧ (∀ k v, s4B k = some v → v.value ≠ none)
      ∧ (∀ k vA vB, s4A k = some vA → s4B k = some vB → kEq vA vB →
          vA.value = vB.value))
    ∧ (∀ k, recOf ((threeWaySync s4A s4B).1 k)
        = recOf ((threeWaySync s4A s4B).2 k))
    ∧ (threeWaySync s4A s4B).1 "k1" = s4A "k1"
    ∧ (threeWaySync s4A s4B).1 "k2" = s4B "k2"
    ∧ (threeWaySync s4A s4B).1 "k3" = s4B "k3"
    ∧ (threeWaySync s4A s4B).2 "k1" = s4A "k1"
    ∧ (threeWaySync s4A s4B).2 "k2" = s4B "k2"
    ∧ (threeWaySync s4A s4B).2 "k3" = s4B "k3" := by
  have hA : ∀ k v, s4A k = some v → v.value ≠ none := by
    intro k v h
    unfold s4A at h
    split at h
    · injection h with h2; subst h2; decide
    · split at h
      · injection h with h2; subst h2; decide
      · exact Option.noConfusion h
  have hB : ∀ k v, s4B k = some v → v.value ≠ none := by
    intro k v h
    unfold s4B at h
    split at h
    · injection h with h2; subst h2; decide
    · split at h
      · injection h with h2; subst h2; decide
      · exact Option.noConfusion h
  have hc : ∀ k vA vB, s4A k = some vA → s4B k = some vB → kEq vA vB →
      vA.value = vB.value := by
    intro k vA vB h1 h2 he
    unfold s4A at h1
    unfold s4B at h2
    split at h1
    · rename_i hk1
      subst hk1
      rw [if_neg (by decide), if_neg (by decide)] at h2
      exact Option.noConfusion h2
    · split at h1
      · rename_i hk1 hk2
        subst hk2
        rw [if_pos rfl] at h2
        injection h1 with h1'
        injection h2 with h2'
        subst h1'
        subst h2'
        exact absurd he.1 (by decide)
      · exact Option.noConfusion h1
  exact ⟨⟨hA, hB, hc⟩, C4_three_way_sync_converges s4A s4B hA hB hc,
    by decide, by decide, by decide, by decide, by decide, by decide⟩

/-- Modelled from the spec: the per-value action of
`KvStoreDb::updatePublicationTtl` (body not in the sources).  A forwarder
subtracts ttl_decrement_ms from the value's remaining TTL before
re-flooding; a value whose remaining TTL would become ≤ 0 is dropped, and
when the removeAboutToExpire knob is set a value whose remaining TTL is
below the threshold (Constants::kTtlThreshold, passed as a parameter) is
omitted as well. -/
def updateValueTtl (ttlDecr threshold : Int) (removeAboutToExpire : Bool)
    (v : Value) : Option Value :=
  if v.ttl - ttlDecr ≤ 0 then none
  else if removeAboutToExpire = true ∧ v.ttl < threshold then none
  else some { v with ttl := v.ttl - ttlDecr }

/-- Modelled from the spec: `KvStoreDb::updatePublicationTtl` lifted over
the publication's key-value map. -/
def updatePublicationTtl (ttlDecr threshold : Int)
    (removeAboutToExpire : Bool) (pub : KvMap) : KvMap :=
  fun k => (pub k).bind (updateValueTtl ttlDecr threshold removeAboutToExpire)

/-- C5.  Every value surviving in an outgoing publication has had ttlDecr
subtracted from its remaining TTL (other fields unchanged) and its new TTL
is positive; a value whose remaining TTL would become ≤ 0 is dropped; and
with the remove-about-to-expire knob set, a value whose remaining TTL is
below the threshold is omitted. -/
theorem C5_publication_ttl_decrement (ttlDecr threshold : Int) (rm : Bool)
    (pub : KvMap) (k : String) :
    (∀ v', updatePublicationTtl ttlDecr threshold rm pub k = some v' ↔
        ∃ v, pub k = some v ∧ 0 < v.ttl - ttlDecr
          ∧ ¬(rm = true ∧ v.ttl < threshold)
          ∧ v' = { v with ttl := v.ttl - ttlDecr })
    ∧ (∀ v, pub k = some v → v.ttl - ttlDecr ≤ 0 →
        updatePublicationTtl ttlDecr threshold rm pub k = none)
    ∧ (∀ v, pub k = some v → rm = true → v.ttl < threshold →
        updatePublicationTtl ttlDecr threshold rm pub k = none) := by
  refine ⟨?_, ?_, ?_⟩
  · intro v'
    unfold updatePublicationTtl updateValueTtl
    cases hp : pub k with
    | none => simp
    | some v =>
      show (if v.ttl - ttlDecr ≤ 0 then none
        else if rm = true ∧ v.ttl < threshold then none
        else some ⟨v.version, v.originatorId, v.value, v.ttl - ttlDecr,
          v.ttlVersion, v.hash⟩) = some v' ↔ _
      split_ifs with h1 h2
      · refine iff_of_false (by simp) ?_
        rintro ⟨w, hw, hpos, -, -⟩
        injection hw with hw'
        subst hw'
        omega
      · refine iff_of_false (by simp) ?_
        rintro ⟨w, hw, -, hnot, -⟩
        injection hw with hw'
        subst hw'
        exact hnot h2
      · constructor
        · intro h
          injection h with h'
          exact ⟨v, rfl, by omega, h2, h'.symm⟩
        · rintro ⟨w, hw, -, -, hv'⟩
          injection hw with hw'
          subst hw'
          rw [hv']
  · intro v hp hle
    unfold updatePublicationTtl updateValueTtl
    rw [hp]
    show (if v.ttl - ttlDecr ≤ 0 then (none : Option Value)
      else if rm = true ∧ v.ttl < threshold then none
      else some (⟨v.version, v.originatorId, v.value, v.ttl - ttlDecr,
        v.ttlVersion, v.hash⟩ : Value)) = none
    rw [if_pos hle]
  · intro v hp hrm hlt
    unfold updatePublicationTtl updateValueTtl
    rw [hp]
    show (if v.ttl - ttlDecr ≤ 0 then (none : Option Value)
      else if rm = true ∧ v.ttl < threshold then none
      else some (⟨v.version, v.originatorId, v.value, v.ttl - ttlDecr,
        v.ttlVersion, v.hash⟩ : Value)) = none
    split_ifs with h1 h2
    · rfl
    · rfl
    · exact absurd ⟨hrm, hlt⟩ h2

/-- A concrete publication for the C5 witness. -/
def pubC5 : KvMap := fun k =>
  if k = "a" then some ⟨1, "n", some "x", 3, 0, 5⟩ else none

/-- Witness: a value with remaining TTL 3 is dropped when the decrement
is 4 (its TTL would become ≤ 0), and survives with TTL 2 when the
decrement is 1. -/
theorem C5_witness :
    (pubC5 "a" = some ⟨1, "n", some "x", 3, 0, 5⟩
      ∧ updatePublicationTtl 4 2 false pubC5 "a" = none)
    ∧ updatePublicationTtl 1 2 false pubC5 "a"
        = some ⟨1, "n", some "x", 2, 0, 5⟩ := by
  refine ⟨⟨by decide, ?_⟩, ?_⟩
  · exact (C5_publication_ttl_decrement 4 2 false pubC5 "a").2.1
      ⟨1, "n", some "x", 3, 0, 5⟩ (by decide) (by decide)
  · exact ((C5_publication_ttl_decrement 1 2 false pubC5 "a").1
      ⟨1, "n", some "x", 2, 0, 5⟩).mpr
      ⟨⟨1, "n", some "x", 3, 0, 5⟩, by decide, by decide, by decide, by decide⟩

/-- From the source header: the TTL countdown queue entry.  Its
`operator>` compares expiryTime only, and the queue is declared as a
boost stable priority queue with the greater comparator, i.e. a min-heap
on expiryTime that always returns the smallest entry first. -/
structure TtlCountdownQueueEntry where
  expiryTime : Int
  key : String
  version : Int
  ttlVersion : Int
  originatorId : String
deriving DecidableEq

/-- The source's `operator>` on queue entries: solely by expiryTime. -/
def TtlCountdownQueueEntry.gtEntry (a b : TtlCountdownQueueEntry) : Prop :=
  b.expiryTime < a.expiryTime

instance (a b : TtlCountdownQueueEntry) :
    Decidable (TtlCountdownQueueEntry.gtEntry a b) :=
  inferInstanceAs (Decidable (b.expiryTime < a.expiryTime))

/-- The contents of the boost stable min-heap, embedded as the list of
entries in insertion order. -/
abbrev TtlCountdownQueue := List TtlCountdownQueueEntry

/-- Pop of the stable min-heap: returns the earliest-inserted entry among
those with minimal expiryTime, together with the remaining entries. -/
def popMin : TtlCountdownQueue →
    Option (TtlCountdownQueueEntry × TtlCountdownQueue)
  | [] => none
  | e :: rest =>
    match popMin rest with
    | none => some (e, [])
    | some (m, rest') =>
      if m.expiryTime < e.expiryTime then some (m, e :: rest')
      else some (e, rest)

lemma popMin_ne_none (e : TtlCountdownQueueEntry) (rest : TtlCountdownQueue) :
    popMin (e :: rest) ≠ none := by
  unfold popMin
  cases hp : popMin rest with
  | none => simp
  | some mr =>
    rcases mr with ⟨m, r⟩
    dsimp only
    split_ifs <;> simp

lemma popMin_min :
    ∀ (q : TtlCountdownQueue) e q', popMin q = some (e, q') →
      ∀ x ∈ q, e.expiryTime ≤ x.expiryTime := by
  intro q
  induction q with
  | nil => intro e q' h; exact absurd h (by simp [popMin])
  | cons hd tl ih =>
    intro e q' h x hx
    unfold popMin at h
    cases hp : popMin tl with
    | none =>
      rw [hp] at h
      dsimp only at h
      injection h with h'
      injection h' with h1 h2
      subst h1
      cases tl with
      | nil =>
        rcases List.mem_singleton.mp hx with rfl
        exact le_refl _
      | cons a b => exact absurd hp (popMin_ne_none a b)
    | some mr =>
      rw [hp] at h
      rcases mr with ⟨m, rest'⟩
      dsimp only at h
      have hm := ih m rest' hp
      split_ifs at h with hlt
      · injection h with h'
        injection h' with h1 h2
        subst h1
        rcases List.mem_cons.mp hx with rfl | hx'
        · exact le_of_lt hlt
        · exact hm x hx'
      · injection h with h'
        injection h' with h1 h2
        subst h1
        rcases List.mem_cons.mp hx with rfl | hx'
        · exact le_refl _
        · exact le_trans (not_lt.mp hlt) (hm x hx')

/-- Modelled from the spec: the local deletion publication record emitted
when a key expires — an empty value body carrying the same
(version, ttlVersion) as the record that expired. -/
def deletionRecord (e : TtlCountdownQueueEntry) : Value :=
  ⟨e.version, e.originatorId, none, 0, e.ttlVersion, 0⟩

/-- Modelled from the spec: one sweep of
`KvStoreDb::cleanupTtlCountdownQueue` (body not in the sources).  Pop all
entries with expiryTime ≤ now; an entry whose (version, ttlVersion) still
matches the current record removes the key and emits a deletion
publication record; a stale entry is discarded silently.  `fuel` bounds
the number of pops (the queue length at the call). -/
def cleanupGo (now : Int) : Nat → KvMap → TtlCountdownQueue →
    (String → Option Value) →
    KvMap × TtlCountdownQueue × (String → Option Value)
  | 0, s, q, dels => (s, q, dels)
  | fuel + 1, s, q, dels =>
    match popMin q with
    | none => (s, q, dels)
    | some (e, q') =>
      if e.expiryTime ≤ now then
        match s e.key with
        | some v =>
          if v.version = e.version ∧ v.ttlVersion = e.ttlVersion then
            cleanupGo now fuel (fun k => if k = e.key then none else s k) q'
              (fun k => if k = e.key then some (deletionRecord e) else dels k)
          else cleanupGo now fuel s q' dels
        | none => cleanupGo now fuel s q' dels
      else (s, q, dels)

/-- The TTL sweep on a store and queue: returns the updated store, the
remaining queue and the emitted deletion publication. -/
def cleanupTtlCountdownQueue (now : Int) (s : KvMap) (q : TtlCountdownQueue) :
    KvMap × TtlCountdownQueue × (String → Option Value) :=
  cleanupGo now q.length s q (fun _ => none)

/-- From the source header: `getKeyVals` — multi-get; missing keys are
simply absent from the returned publication. -/
def getKeyVals (s : KvMap) (keys : List String) : KvMap :=
  fun k => if k ∈ keys then s k else none

/-- From the source header: `dumpAllWithFilters` — dump the entries whose
keys match the filter (the filter predicate is passed as a function). -/
def dumpAllWithFilters (s : KvMap) (fl : String → Value → Bool) : KvMap :=
  fun k =>
    match s k with
    | some v => if fl k v then some v else none
    | none => none

/-- The sweep never resurrects a key: once absent from the store, a key
stays absent, and its deletion slot is untouched by later pops. -/
lemma cleanupGo_absent (now : Int) (fuel : Nat) :
    ∀ (s : KvMap) (q : TtlCountdownQueue) (dels : String → Option Value)
      (k : String), s k = none →
      (cleanupGo now fuel s q dels).1 k = none
      ∧ (cleanupGo now fuel s q dels).2.2 k = dels k := by
  induction fuel with
  | zero => intro s q dels k h; exact ⟨h, rfl⟩
  | succ n ih =>
    intro s q dels k h
    show (match popMin q with
      | none => (s, q, dels)
      | some (e, q') =>
        if e.expiryTime ≤ now then
          match s e.key with
          | some v =>
            if v.version = e.version ∧ v.ttlVersion = e.ttlVersion then
              cleanupGo now n (fun k => if k = e.key then none else s k) q'
                (fun k => if k = e.key then some (deletionRecord e) else dels k)
            else cleanupGo now n s q' dels
          | none => cleanupGo now n s q' dels
        else (s, q, dels)).1 k = none
      ∧ (match popMin q with
      | none => (s, q, dels)
      | some (e, q') =>
        if e.expiryTime ≤ now then
          match s e.key with
          | some v =>
            if v.version = e.version ∧ v.ttlVersion = e.ttlVersion then
              cleanupGo now n (fun k => if k = e.key then none else s k) q'
                (fun k => if k = e.key then some (deletionRecord e) else dels k)
            else cleanupGo now n s q' dels
          | none => cleanupGo now n s q' dels
        else (s, q, dels)).2.2 k = dels k
    cases hp : popMin q with
    | none => exact ⟨h, rfl⟩
    | some eq' =>
      rcases eq' with ⟨e, q'⟩
      dsimp only
      split_ifs with hnow
      · cases hk : s e.key with
        | none => exact ih s q' dels k h
        | some v =>
          dsimp only
          split_ifs with hmatch
          · have hne : k ≠ e.key := fun hkk => by
              rw [hkk] at h
              rw [h] at hk
              exact Option.noConfusion hk
            have h1 : (fun k => if k = e.key then none else s k) k = none := by
              show (if k = e.key then (none : Option Value) else s k) = none
              rw [if_neg hne]
              exact h
            rcases ih (fun k => if k = e.key then none else s k) q'
              (fun k => if k = e.key then some (deletionRecord e) else dels k)
              k h1 with ⟨ha, hb⟩
            refine ⟨ha, ?_⟩
            rw [hb]
            show (if k = e.key then some (deletionRecord e) else dels k) = dels k
            rw [if_neg hne]
          · exact ih s q' dels k h
      · exact ⟨h, rfl⟩

/-- C6.  When the first popped TTL-countdown entry is due and still
matches the current record's (version, ttlVersion), the sweep removes the
key from the store and emits exactly one deletion publication record with
an empty value body and the same (version, ttlVersion); afterwards the
key appears neither in getKeyVals nor in any dump, and later sweeps emit
no further deletion for it. -/
theorem C6_ttl_expiry_deletion (now : Int) (s : KvMap)
    (q : TtlCountdownQueue) (e : TtlCountdownQueueEntry)
    (q' : TtlCountdownQueue) (v : Value)
    (hpop : popMin q = some (e, q'))
    (hnow : e.expiryTime ≤ now)
    (hcur : s e.key = some v)
    (hver : v.version = e.version)
    (htv : v.ttlVersion = e.ttlVersion) :
    (cleanupTtlCountdownQueue now s q).1 e.key = none
    ∧ (cleanupTtlCountdownQueue now s q).2.2 e.key = some (deletionRecord e)
    ∧ (deletionRecord e).value = none
    ∧ (deletionRecord e).version = e.version
    ∧ (deletionRecord e).ttlVersion = e.ttlVersion
    ∧ (∀ keys, getKeyVals (cleanupTtlCountdownQueue now s q).1 keys e.key = none)
    ∧ (∀ fl, dumpAllWithFilters (cleanupTtlCountdownQueue now s q).1 fl e.key
        = none)
    ∧ (∀ now2 q2, (cleanupTtlCountdownQueue now2
        (cleanupTtlCountdownQueue now s q).1 q2).2.2 e.key = none) := by
  have hq : ∃ n, q.length = n + 1 := by
    cases q with
    | nil => exact absurd hpop (by simp [popMin])
    | cons a b => exact ⟨b.length, rfl⟩
  rcases hq with ⟨n, hn⟩
  have hstep : cleanupTtlCountdownQueue now s q
      = cleanupGo now n (fun k => if k = e.key then none else s k) q'
        (fun k => if k = e.key then some (deletionRecord e) else none) := by
    unfold cleanupTtlCountdownQueue
    rw [hn]
    simp only [cleanupGo]
    rw [hpop]
    dsimp only
    rw [if_pos hnow, hcur]
    dsimp only
    rw [if_pos ⟨hver, htv⟩]
  have habs := cleanupGo_absent now n
    (fun k => if k = e.key then none else s k) q'
    (fun k => if k = e.key then some (deletionRecord e) else none)
    e.key (by show (if e.key = e.key then (none : Option Value) else s e.key)
      = none; rw [if_pos rfl])
  have h1 : (cleanupTtlCountdownQueue now s q).1 e.key = none := by
    rw [hstep]; exact habs.1
  have h2 : (cleanupTtlCountdownQueue now s q).2.2 e.key
      = some (deletionRecord e) := by
    rw [hstep, habs.2]
    show (if e.key = e.key then some (deletionRecord e) else none)
      = some (deletionRecord e)
    rw [if_pos rfl]
  refine ⟨h1, h2, rfl, rfl, rfl, ?_, ?_, ?_⟩
  · intro keys
    unfold getKeyVals
    split_ifs with hmem
    · exact h1
    · rfl
  · intro fl
    unfold dumpAllWithFilters
    rw [h1]
  · intro now2 q2
    exact (cleanupGo_absent now2 q2.length
      (cleanupTtlCountdownQueue now s q).1 q2 (fun _ => none) e.key h1).2

/-- Concrete data for the C6 witness: one live record and a matching due
queue entry. -/
def c6Entry : TtlCountdownQueueEntry := ⟨10, "foo", 4, 2, "n"⟩

def c6Store : KvMap := fun k =>
  if k = "foo" then some ⟨4, "n", some "x", 50, 2, 9⟩ else none

/-- Witness: sweeping at time 10 expires the matching record of key
"foo", removing it and emitting one deletion record. -/
theorem C6_witness :
    (popMin [c6Entry] = some (c6Entry, [])
      ∧ c6Entry.expiryTime ≤ 10
      ∧ c6Store c6Entry.key = some ⟨4, "n", some "x", 50, 2, 9⟩)
    ∧ (cleanupTtlCountdownQueue 10 c6Store [c6Entry]).1 c6Entry.key = none
    ∧ (cleanupTtlCountdownQueue 10 c6Store [c6Entry]).2.2 c6Entry.key
        = some (deletionRecord c6Entry) := by
  have h := C6_ttl_expiry_deletion 10 c6Store [c6Entry] c6Entry []
    ⟨4, "n", some "x", 50, 2, 9⟩ (by decide) (by decide) (by decide)
    (by decide) (by decide)
  exact ⟨⟨by decide, by decide, by decide⟩, h.1, h.2.1⟩

/-- Modelled from the spec: Constants::kTtlInfinity, the sentinel TTL of a
key that never expires (a key with ttl == ∞ is never enqueued). -/
def kTtlInfinity : Int := -2147483648

/-- Modelled from the spec: `KvStoreDb::updateTtlCountdownQueue` (body not
in the sources) — for every key-value of an accepted publication whose TTL
is finite, push a fresh countdown entry expiring at now + ttl; existing
entries are never mutated. -/
def updateTtlCountdownQueue (now : Int) (pub : List (String × Value))
    (q : TtlCountdownQueue) : TtlCountdownQueue :=
  q ++ pub.filterMap (fun kv =>
    if kv.2.ttl = kTtlInfinity then none
    else some ⟨now + kv.2.ttl, kv.1, kv.2.version, kv.2.ttlVersion,
      kv.2.originatorId⟩)

/-- A queue holding two entries for the same key (an original entry and a
TTL-refresh), as arises after a merge accepts an update. -/
def qDemo : TtlCountdownQueue :=
  updateTtlCountdownQueue 0 [("k", ⟨1, "n", some "x", 7, 1, 3⟩)]
    (updateTtlCountdownQueue 0 [("k", ⟨1, "n", some "x", 5, 0, 3⟩)] [])

/-- C7.  The TTL countdown queue is a stable min-heap ordered solely by
expiryTime: pop always returns an entry with the smallest expiryTime and
the source comparator ignores every other field; accepted updates push
fresh entries, leaving the existing queue contents untouched as a prefix,
so the queue can hold more entries than live records (two entries for one
key); and a due entry whose (version, ttlVersion) no longer matches the
current record is discarded silently — no store change and no deletion
emission. -/
theorem C7_ttl_queue_invariants :
    (∀ (q : TtlCountdownQueue) e q', popMin q = some (e, q') →
      ∀ x ∈ q, e.expiryTime ≤ x.expiryTime)
    ∧ (∀ a b : TtlCountdownQueueEntry, a.expiryTime = b.expiryTime →
        ¬ TtlCountdownQueueEntry.gtEntry a b
          ∧ ¬ TtlCountdownQueueEntry.gtEntry b a)
    ∧ (∀ now pub (q : TtlCountdownQueue),
        ∃ tail, updateTtlCountdownQueue now pub q = q ++ tail)
    ∧ (qDemo.length = 2 ∧ ∀ x ∈ qDemo, x.key = "k")
    ∧ (∀ now (s : KvMap) (e : TtlCountdownQueueEntry), e.expiryTime ≤ now →
        (∀ v, s e.key = some v →
          ¬(v.version = e.version ∧ v.ttlVersion = e.ttlVersion)) →
        cleanupTtlCountdownQueue now s [e] = (s, [], fun _ => none)) := by
  refine ⟨popMin_min, ?_, ?_, ⟨by decide, by decide⟩, ?_⟩
  · intro a b h
    unfold TtlCountdownQueueEntry.gtEntry
    omega
  · intro now pub q
    exact ⟨_, rfl⟩
  · intro now s e hnow hstale
    unfold cleanupTtlCountdownQueue
    show cleanupGo now 1 s [e] (fun _ => none) = (s, [], fun _ => none)
    simp only [cleanupGo]
    rw [show popMin [e] = some (e, []) from rfl]
    dsimp only
    rw [if_pos hnow]
    cases hk : s e.key with
    | none => rfl
    | some v =>
      dsimp only
      rw [if_neg (hstale v hk)]

/-- Concrete queue entries for the C7 witness. -/
def c7E1 : TtlCountdownQueueEntry := ⟨5, "a", 1, 0, "n"⟩

def c7E2 : TtlCountdownQueueEntry := ⟨3, "b", 1, 0, "n"⟩

/-- Witness: pop of a two-entry queue returns the entry with the smaller
expiryTime, and a due but stale singleton entry is discarded silently. -/
theorem C7_witness :
    (popMin [c7E1, c7E2] = some (c7E2, [c7E1])
      ∧ c7E2.expiryTime ≤ c7E1.expiryTime)
    ∧ ((c7E1.expiryTime ≤ 9
        ∧ (∀ v, c6Store c7E1.key = some v →
            ¬(v.version = c7E1.version ∧ v.ttlVersion = c7E1.ttlVersion)))
      ∧ cleanupTtlCountdownQueue 9 c6Store [c7E1]
          = (c6Store, [], fun _ => none)) := by
  have hmin := C7_ttl_queue_invariants.1 [c7E1, c7E2] c7E2 [c7E1]
    (by decide) c7E1 (by simp)
  have hstale : ∀ v, c6Store c7E1.key = some v →
      ¬(v.version = c7E1.version ∧ v.ttlVersion = c7E1.ttlVersion) := by
    intro v h
    have hnone : c6Store c7E1.key = none := by decide
    rw [hnone] at h
    exact Option.noConfusion h
  exact ⟨⟨by decide, hmin⟩,
    ⟨⟨by decide, hstale⟩,
      C7_ttl_queue_invariants.2.2.2.2 9 c6Store c7E1 (by decide) hstale⟩⟩

/-- The per-root spanning-tree state a node tracks for flooding: the
current parent (if any) and the set of children. -/
structure DualRootState where
  parent : Option String
  children : List String

/-- Modelled from the spec: `KvStoreDb::getFloodPeers` (body not in the
sources; the header comment says: if rootId is none, flood to all physical
peers, else flood only to the formed SPT peers for that root).  Dual-plane
state is consulted only when flood optimization is enabled. -/
def getFloodPeers (enableFloodOptimization : Bool)
    (spt : String → DualRootState) (physicalPeers : List String)
    (rootId : Option String) : List String :=
  if enableFloodOptimization then
    match rootId with
    | some r => (spt r).parent.toList ++ (spt r).children
    | none => physicalPeers
  else physicalPeers

/-- C8.  A peer receives a flood exactly when: the publication carries a
flood-root-id and flood optimization is enabled and the peer is the
current parent or one of the children of that root's spanning tree; or
the root-id is absent (or flood optimization is disabled) and the peer is
a physical peer. -/
theorem C8_flood_peer_selection (en : Bool) (spt : String → DualRootState)
    (physicalPeers : List String) (rootId : Option String) (p : String) :
    p ∈ getFloodPeers en spt physicalPeers rootId ↔
      ((en = true ∧ ∃ r, rootId = some r
          ∧ ((spt r).parent = some p ∨ p ∈ (spt r).children))
        ∨ ((en = false ∨ rootId = none) ∧ p ∈ physicalPeers)) := by
  unfold getFloodPeers
  cases en with
  | false => simp
  | true =>
    rw [if_pos rfl]
    cases rootId with
    | none => simp
    | some r =>
      constructor
      · intro hp
        rcases List.mem_append.mp hp with hp | hc
        · refine Or.inl ⟨rfl, r, rfl, Or.inl ?_⟩
          cases hpar : (spt r).parent with
          | none => rw [hpar] at hp; exact absurd hp (by simp)
          | some q =>
            rw [hpar] at hp
            simp only [Option.toList_some, List.mem_singleton] at hp
            rw [hp]
        · exact Or.inl ⟨rfl, r, rfl, Or.inr hc⟩
      · rintro (⟨-, r', hr', hp | hc⟩ | ⟨hfalse, -⟩)
        · injection hr' with hr''
          subst hr''
          exact List.mem_append.mpr (Or.inl (by rw [hp]; simp))
        · injection hr' with hr''
          subst hr''
          exact List.mem_append.mpr (Or.inr hc)
        · rcases hfalse with h | h
          · exact absurd h (by simp)
          · exact Option.noConfusion h

/-- Modelled from the spec: the per-peer sync states of the state machine
(the spec's names IDLE / INITIALIZED / SYNCED; the thrift enum itself is
not among the sources). -/
inductive KvStorePeerState
  | IDLE
  | INITIALIZED
  | SYNCED
deriving DecidableEq

/-- From the source header: the events driving peer state transitions.
The spec calls the last event TRANSPORT_ERROR; the source enum names it
THRIFT_API_ERROR. -/
inductive KvStorePeerEvent
  | PEER_ADD
  | PEER_DEL
  | SYNC_RESP_RCVD
  | THRIFT_API_ERROR
deriving DecidableEq

/-- Modelled from the spec: `KvStoreDb::getNextState` (body not in the
sources; the source declares it on an optional current state).  A new or
re-added peer is IDLE, a received dump moves INITIALIZED to SYNCED, any
error returns the peer to IDLE, and deletion resets to IDLE before the
entry is removed by the caller. -/
def getNextState (currState : Option KvStorePeerState)
    (event : KvStorePeerEvent) : KvStorePeerState :=
  match currState, event with
  | none, _ => .IDLE
  | some _, .PEER_DEL => .IDLE
  | some st, .PEER_ADD => st
  | some .INITIALIZED, .SYNC_RESP_RCVD => .SYNCED
  | some st, .SYNC_RESP_RCVD => st
  | some _, .THRIFT_API_ERROR => .IDLE

/-- A peer entry of the per-area peer table: its sync state and whether
it is currently under exponential backoff. -/
structure KvStorePeer where
  state : KvStorePeerState
  inBackoff : Bool
deriving DecidableEq

/-- Modelled from the spec: how an event updates the peer table.  PEER_DEL
removes the peer's entry (terminal); PEER_ADD (re)creates it in the state
given by getNextState with no backoff; a sync response applies
getNextState and clears backoff; an error applies getNextState (back to
IDLE) and sets backoff. -/
def applyPeerEvent (peers : String → Option KvStorePeer) (p : String)
    (event : KvStorePeerEvent) : String → Option KvStorePeer :=
  match event with
  | .PEER_DEL => fun q => if q = p then none else peers q
  | .PEER_ADD => fun q =>
    if q = p then
      some ⟨getNextState ((peers p).map KvStorePeer.state) .PEER_ADD, false⟩
    else peers q
  | .SYNC_RESP_RCVD => fun q =>
    if q = p then
      (peers p).map (fun e => ⟨getNextState (some e.state) .SYNC_RESP_RCVD,
        false⟩)
    else peers q
  | .THRIFT_API_ERROR => fun q =>
    if q = p then
      (peers p).map (fun e => ⟨getNextState (some e.state) .THRIFT_API_ERROR,
        true⟩)
    else peers q

/-- Modelled from the spec: the sync-timer scan (requestThriftPeerSync) —
when the timer fires, every IDLE peer is sent a full-dump request and
moves to INITIALIZED. -/
def requestThriftPeerSync (peers : String → Option KvStorePeer) :
    String → Option KvStorePeer :=
  fun q => (peers q).map (fun e =>
    if e.state = .IDLE then ⟨.INITIALIZED, e.inBackoff⟩ else e)

/-- C9.  The peer sync machine is driven by exactly the four events of the
source enum (PEER_ADD, PEER_DEL, SYNC_RESP_RCVD and the error event, which
the spec calls TRANSPORT_ERROR and the source THRIFT_API_ERROR); the sync
timer moves an IDLE peer to INITIALIZED (full-dump request sent); a
received dump moves INITIALIZED to SYNCED; an error moves INITIALIZED or
SYNCED back to IDLE with backoff set; and peer removal is terminal — the
peer's entry is gone. -/
theorem C9_peer_state_machine :
    (∀ ev : KvStorePeerEvent, ev = .PEER_ADD ∨ ev = .PEER_DEL
      ∨ ev = .SYNC_RESP_RCVD ∨ ev = .THRIFT_API_ERROR)
    ∧ (∀ (peers : String → Option KvStorePeer) p e, peers p = some e →
        e.state = .IDLE →
        requestThriftPeerSync peers p = some ⟨.INITIALIZED, e.inBackoff⟩)
    ∧ getNextState (some .INITIALIZED) .SYNC_RESP_RCVD = .SYNCED
    ∧ (∀ (peers : String → Option KvStorePeer) p e, peers p = some e →
        e.state = .INITIALIZED →
        applyPeerEvent peers p .THRIFT_API_ERROR p = some ⟨.IDLE, true⟩)
    ∧ (∀ (peers : String → Option KvStorePeer) p e, peers p = some e →
        e.state = .SYNCED →
        applyPeerEvent peers p .THRIFT_API_ERROR p = some ⟨.IDLE, true⟩)
    ∧ (∀ (peers : String → Option KvStorePeer) p,
        applyPeerEvent peers p .PEER_DEL p = none) := by
  refine ⟨?_, ?_, rfl, ?_, ?_, ?_⟩
  · intro ev
    cases ev
    · exact Or.inl rfl
    · exact Or.inr (Or.inl rfl)
    · exact Or.inr (Or.inr (Or.inl rfl))
    · exact Or.inr (Or.inr (Or.inr rfl))
  · intro peers p e hp hst
    unfold requestThriftPeerSync
    rw [hp]
    simp only [Option.map_some']
    rw [if_pos hst]
  · intro peers p e hp hst
    show (if p = p then
        (peers p).map (fun e => ⟨getNextState (some e.state)
          .THRIFT_API_ERROR, true⟩)
      else peers p) = some ⟨.IDLE, true⟩
    rw [if_pos rfl, hp]
    simp only [Option.map_some']
    rw [hst]
    rfl
  · intro peers p e hp hst
    show (if p = p then
        (peers p).map (fun e => ⟨getNextState (some e.state)
          .THRIFT_API_ERROR, true⟩)
      else peers p) = some ⟨.IDLE, true⟩
    rw [if_pos rfl, hp]
    simp only [Option.map_some']
    rw [hst]
    rfl
  · intro peers p
    show (if p = p then none else peers p) = none
    rw [if_pos rfl]

/-- Concrete peer table for the C9 witness. -/
def c9Peers : String → Option KvStorePeer :=
  fun q => if q = "peer1" then some ⟨.INITIALIZED, false⟩ else none

/-- Witness: for a concrete peer table, an error at INITIALIZED moves the
peer to IDLE with backoff, and deletion removes the entry. -/
theorem C9_witness :
    (c9Peers "peer1" = some ⟨.INITIALIZED, false⟩
      ∧ applyPeerEvent c9Peers "peer1" .THRIFT_API_ERROR "peer1"
          = some ⟨.IDLE, true⟩)
    ∧ applyPeerEvent c9Peers "peer1" .PEER_DEL "peer1" = none := by
  exact ⟨⟨by decide,
    C9_peer_state_machine.2.2.2.1 c9Peers "peer1" ⟨.INITIALIZED, false⟩
      (by decide) (by decide)⟩,
    C9_peer_state_machine.2.2.2.2.2 c9Peers "peer1"⟩

/-- The fields of the decoded thrift::PrefixDatabase that the key-filter
subscription callback inspects (PrefixManager.cpp).  `deletePrefixFlag`
models the deletePrefix field. -/
structure PrefixDatabase where
  deletePrefixFlag : Bool
  thisNodeName : String
deriving DecidableEq

/-- The observable effect of one callback invocation: the (network, key)
pair added to the advertised-keys cache (advertisedKeys_[network].keys),
if any, and whether a throttled KvStore re-sync was scheduled
(pendingUpdates_ + syncKvStoreThrottled_). -/
structure KeyFilterCbResult where
  advertisedAdd : Option (String × String)
  syncScheduled : Bool
deriving DecidableEq

/-- The key-filter subscription callback registered by the PrefixManager
constructor (PrefixManager.cpp, subscribeKeyFilter), translated from the
source.  The helpers PrefixKey::isPrefixKeyV2Str, PrefixKey::fromStrV2 /
fromStr (returning the parsed network, modelled as a string) and the
thrift decoding of the value body into a PrefixDatabase are passed as
function parameters. -/
def keyFilterCallback (enableNewPrefixFormat : Bool) (nodeId : String)
    (isPrefixKeyV2Str : String → Bool)
    (parseNetworkV2 parseNetwork : String → String)
    (decodePrefixDb : String → PrefixDatabase)
    (prefixStr : String) (val : Option Value) : KeyFilterCbResult :=
  match val with
  | none => ⟨none, false⟩
  | some v =>
    match v.value with
    | none => ⟨none, false⟩
    | some body =>
      if enableNewPrefixFormat = true ∧ isPrefixKeyV2Str prefixStr = false
      then ⟨none, false⟩
      else
        let network := if enableNewPrefixFormat = true
          then parseNetworkV2 prefixStr else parseNetwork prefixStr
        let prefixDb := decodePrefixDb body
        if prefixDb.deletePrefixFlag = false
            ∧ nodeId = prefixDb.thisNodeName then
          ⟨some (network, prefixStr), true⟩
        else ⟨none, false⟩

/-- C10.  The callback ignores an update with an absent value or one with
no value body (a TTL-refresh-only update never triggers
re-advertisement), and whenever it adds a key to the advertised-keys
cache or schedules a re-sync, the update carried a value body whose
decoded PrefixDatabase has deletePrefix false and thisNodeName equal to
the local node id — and then it does both, adding exactly the parsed
(network, key). -/
theorem C10_prefix_key_filter_callback (en : Bool) (nodeId : String)
    (isV2 : String → Bool) (pv2 pv : String → String)
    (dec : String → PrefixDatabase) (prefixStr : String) :
    (keyFilterCallback en nodeId isV2 pv2 pv dec prefixStr none
        = ⟨none, false⟩)
    ∧ (∀ v, v.value = none →
        keyFilterCallback en nodeId isV2 pv2 pv dec prefixStr (some v)
          = ⟨none, false⟩)
    ∧ (∀ val, (keyFilterCallback en nodeId isV2 pv2 pv dec prefixStr
          val).syncScheduled = true
        ∨ (keyFilterCallback en nodeId isV2 pv2 pv dec prefixStr
          val).advertisedAdd ≠ none →
        ∃ v body, val = some v ∧ v.value = some body
          ∧ (dec body).deletePrefixFlag = false
          ∧ nodeId = (dec body).thisNodeName
          ∧ keyFilterCallback en nodeId isV2 pv2 pv dec prefixStr val
            = ⟨some ((if en = true then pv2 prefixStr else pv prefixStr),
                prefixStr), true⟩) := by
  refine ⟨rfl, ?_, ?_⟩
  · intro v hv
    unfold keyFilterCallback
    dsimp only
    rw [hv]
  · intro val hact
    cases val with
    | none => simp [keyFilterCallback] at hact
    | some v =>
      cases hv : v.value with
      | none =>
        unfold keyFilterCallback at hact
        dsimp only at hact
        rw [hv] at hact
        simp at hact
      | some body =>
        refine ⟨v, body, rfl, hv, ?_⟩
        unfold keyFilterCallback at hact ⊢
        dsimp only at hact ⊢
        rw [hv] at hact ⊢
        dsimp only at hact ⊢
        by_cases h1 : en = true ∧ isV2 prefixStr = false
        · rw [if_pos h1] at hact
          simp at hact
        · rw [if_neg h1] at hact ⊢
          by_cases h2 : (dec body).deletePrefixFlag = false
              ∧ nodeId = (dec body).thisNodeName
          · rw [if_pos h2] at hact ⊢
            exact ⟨h2.1, h2.2, rfl⟩
          · rw [if_neg h2] at hact
            simp at hact

/-- Concrete inputs for the C10 witness. -/
def c10Val : Value := ⟨1, "node1", some "payload", 10, 0, 1⟩

def c10Dec : String → PrefixDatabase := fun _ => ⟨false, "node1"⟩

/-- Witness: an update carrying a value body whose decoded PrefixDatabase
has deletePrefix false and the local node name both adds the key and
schedules a re-sync. -/
theorem C10_witness :
    ((keyFilterCallback false "node1" (fun _ => true) (fun s => s)
        (fun s => s) c10Dec "pfx" (some c10Val)).syncScheduled = true
      ∨ (keyFilterCallback false "node1" (fun _ => true) (fun s => s)
        (fun s => s) c10Dec "pfx" (some c10Val)).advertisedAdd ≠ none)
    ∧ ∃ v body, some c10Val = some v ∧ v.value = some body
        ∧ (c10Dec body).deletePrefixFlag = false
        ∧ "node1" = (c10Dec body).thisNodeName
        ∧ keyFilterCallback false "node1" (fun _ => true) (fun s => s)
            (fun s => s) c10Dec "pfx" (some c10Val)
          = ⟨some ((if false = true then (fun s => s) "pfx"
              else (fun s => s) "pfx"), "pfx"), true⟩ :=
  ⟨Or.inl (by decide),
    (C10_prefix_key_filter_callback false "node1" (fun _ => true)
      (fun s => s) (fun s => s) c10Dec "pfx").2.2 (some c10Val)
      (Or.inl (by decide))⟩

/-- Concrete records for the C1 witness. -/
def c1A : Value := ⟨2, "n", some "x", 10, 0, 5⟩

def c1B : Value := ⟨1, "n", some "y", 10, 0, 4⟩

def c1H : Value := ⟨9, "n", none, 10, 0, 5⟩

/-- Witness: a byte-carrying record with the greater version is preferred,
and a hash-only record compares as UNKNOWN. -/
theorem C1_witness :
    compareValues c1A c1B = 1 ∧ compareValues c1H c1B = -2 :=
  ⟨(C1_compareValues_characterization c1A c1B).1.mpr
      ⟨by decide, by decide, by decide⟩,
    (C1_compareValues_characterization c1H c1B).2.2.mpr (Or.inl rfl)⟩

/-- Concrete spanning-tree state for the C8 witness. -/
def c8Spt : String → DualRootState := fun _ => ⟨some "par", ["c1"]⟩

/-- Witness: with flood optimization enabled and a root-id present, the
current parent is a flood peer. -/
theorem C8_witness :
    "par" ∈ getFloodPeers true c8Spt ["x"] (some "r") :=
  (C8_flood_peer_selection true c8Spt ["x"] (some "r") "par").mpr
    (Or.inl ⟨rfl, "r", rfl, Or.inl rfl⟩)
